import Mathlib

/-!
Shallow embedding of the mt5-risk-calculator repository.

Numeric values (Python floats used as exact decimals by the source) are
modelled as rationals.  The engine's while loop
(`RecoveryRoadmapCalculator.calculate` in `src/recovery_roadmap/core.py`) is
embedded as a fuel-indexed recursion returning `Option`: a `some` result is
exactly a run of the source loop that exited through its guard, and `none`
means the fuel ran out first.
-/

namespace RecoveryRoadmap

/-- Embedding of the dataclass `SimulationConfig` (core.py). -/
structure SimulationConfig where
  current_balance : ℚ
  target_balance : ℚ
  risk_per_trade_percent : ℚ
  risk_reward_ratio : ℚ
deriving DecidableEq

/-- Embedding of the dataclass `TradeResult` (core.py). -/
structure TradeResult where
  trade_number : ℕ
  account_balance : ℚ
  risk_amount : ℚ
  profit_amount : ℚ
deriving DecidableEq

/-- Fuel-indexed embedding of the while loop of
`RecoveryRoadmapCalculator.calculate` (core.py): while
`current_balance < target_balance`, emit one trade computed from the current
balance and compound the profit into the balance. -/
def calculateFuel (cfg : SimulationConfig) : ℕ → ℚ → ℕ → Option (List TradeResult)
  | 0, current_balance, _ =>
      if current_balance < cfg.target_balance then none else some []
  | fuel + 1, current_balance, trade_number =>
      if current_balance < cfg.target_balance then
        let risk_amount := current_balance * (cfg.risk_per_trade_percent / 100)
        let profit_amount := risk_amount * cfg.risk_reward_ratio
        let new_balance := current_balance + profit_amount
        (calculateFuel cfg fuel new_balance (trade_number + 1)).map
          (fun rest => ⟨trade_number, current_balance, risk_amount, profit_amount⟩ :: rest)
      else some []

/-- Embedding of `RecoveryRoadmapCalculator.calculate` (core.py): the loop
starts from `current_balance` with `trade_number = 1`. -/
def calculate (cfg : SimulationConfig) (fuel : ℕ) : Option (List TradeResult) :=
  calculateFuel cfg fuel cfg.current_balance 1

/-- The dictionary returned by `RecoveryRoadmapCalculator.get_summary`
(core.py).  The source code returns a dict with only three keys when the trade
list is empty and five keys otherwise; the two keys present only in the
non-empty branch are modelled as `Option` fields, `none` meaning the key is
absent. -/
structure SummaryDict where
  total_trades : ℕ
  max_risk_taken : ℚ
  final_balance : ℚ
  starting_balance : Option ℚ
  target_balance : Option ℚ
deriving DecidableEq

/-- Embedding of `RecoveryRoadmapCalculator.get_summary` (core.py), as a pure
function of the config and the computed trade list. -/
def get_summary (cfg : SimulationConfig) (trades : List TradeResult) : SummaryDict :=
  match trades with
  | [] => ⟨0, 0, cfg.current_balance, none, none⟩
  | t :: ts =>
      let max_risk := ts.foldl (fun acc x => max acc x.risk_amount) t.risk_amount
      let lastTrade := (t :: ts).getLast (List.cons_ne_nil t ts)
      ⟨(t :: ts).length, max_risk, lastTrade.account_balance + lastTrade.profit_amount,
        some cfg.current_balance, some cfg.target_balance⟩

/-- The pydantic `Field` constraints of `SimulationRequest` (api.py): every
field is declared `gt=0` and `risk_per_trade_percent` additionally `le=100`.
A request violating one of them is rejected before the handler runs. -/
def pydantic_accepts (current_balance target_balance risk_per_trade_percent
    risk_reward_ratio : ℚ) : Bool :=
  decide (0 < current_balance) && decide (0 < target_balance) &&
    decide (0 < risk_per_trade_percent) && decide (risk_per_trade_percent ≤ 100) &&
    decide (0 < risk_reward_ratio)

/-- Embedding of the `/api/simulate` endpoint (api.py): pydantic validation
first, then the handler's explicit `target_balance <= current_balance` check
(a raised `ValueError`), then the engine.  Errors are the `Except.error`
branch; `Except.ok none` is only ever fuel exhaustion of the model. -/
def simulate (fuel : ℕ) (current_balance target_balance risk_per_trade_percent
    risk_reward_ratio : ℚ) : Except String (Option (List TradeResult × SummaryDict)) :=
  if pydantic_accepts current_balance target_balance risk_per_trade_percent
      risk_reward_ratio then
    if target_balance ≤ current_balance then
      Except.error "Target balance must be greater than current balance"
    else
      match calculate ⟨current_balance, target_balance, risk_per_trade_percent,
          risk_reward_ratio⟩ fuel with
      | none => Except.ok none
      | some trades =>
          Except.ok (some (trades, get_summary ⟨current_balance, target_balance,
            risk_per_trade_percent, risk_reward_ratio⟩ trades))
  else
    Except.error "validation error"

/-- Embedding of the validation and computation in the CLI `main` (cli.py):
the four guard clauses in source order, then the engine. -/
def cli_main (fuel : ℕ) (balance target risk reward : ℚ) :
    Except String (Option (List TradeResult × SummaryDict)) :=
  if balance ≤ 0 then
    Except.error "Current balance must be greater than 0"
  else if target ≤ balance then
    Except.error "Target balance must be greater than current balance"
  else if risk ≤ 0 ∨ 100 < risk then
    Except.error "Risk percentage must be between 0 and 100"
  else if reward ≤ 0 then
    Except.error "Risk-to-Reward ratio must be greater than 0"
  else
    match calculate ⟨balance, target, risk, reward⟩ fuel with
    | none => Except.ok none
    | some trades =>
        Except.ok (some (trades, get_summary ⟨balance, target, risk, reward⟩ trades))

/-- Per-trade growth factor of the compounding loop. -/
def growthFactor (cfg : SimulationConfig) : ℚ :=
  1 + cfg.risk_per_trade_percent / 100 * cfg.risk_reward_ratio

example : calculate ⟨1, 2, 50, 2⟩ 5 = some [⟨1, 1, 1/2, 1⟩] := by
  norm_num [calculate, calculateFuel]

example : calculate ⟨1, 4, 100, 1⟩ 5 = some [⟨1, 1, 1, 1⟩, ⟨2, 2, 2, 2⟩] := by
  norm_num [calculate, calculateFuel]

example : calculate ⟨5, 4, 100, 1⟩ 5 = some [] := by decide

example : calculate ⟨1, 4, 100, 1⟩ 1 = none := by
  norm_num [calculate, calculateFuel]

/-! Structural lemmas about one step of the loop. -/

lemma calculateFuel_ge {cfg : SimulationConfig} {fuel : ℕ} {balance : ℚ} {k : ℕ}
    (h : ¬ balance < cfg.target_balance) :
    calculateFuel cfg fuel balance k = some [] := by
  cases fuel <;> simp [calculateFuel, h]

lemma calculateFuel_some_nil {cfg : SimulationConfig} {fuel : ℕ} {balance : ℚ} {k : ℕ}
    (h : calculateFuel cfg fuel balance k = some []) :
    cfg.target_balance ≤ balance := by
  by_contra hge
  have hlt : balance < cfg.target_balance := lt_of_not_le hge
  cases fuel with
  | zero => simp [calculateFuel, hlt] at h
  | succ f => simp [calculateFuel, hlt] at h

lemma calculateFuel_some_cons {cfg : SimulationConfig} {fuel : ℕ} {balance : ℚ} {k : ℕ}
    {t : TradeResult} {rest : List TradeResult}
    (h : calculateFuel cfg fuel balance k = some (t :: rest)) :
    balance < cfg.target_balance ∧
    t = ⟨k, balance, balance * (cfg.risk_per_trade_percent / 100),
          balance * (cfg.risk_per_trade_percent / 100) * cfg.risk_reward_ratio⟩ ∧
    ∃ f, fuel = f + 1 ∧
      calculateFuel cfg f
        (balance + balance * (cfg.risk_per_trade_percent / 100) * cfg.risk_reward_ratio)
        (k + 1) = some rest := by
  by_cases hlt : balance < cfg.target_balance
  · cases fuel with
    | zero => simp [calculateFuel, hlt] at h
    | succ f =>
        simp only [calculateFuel, if_pos hlt, Option.map_eq_some'] at h
        obtain ⟨a, ha, hcons⟩ := h
        simp only [List.cons.injEq] at hcons
        obtain ⟨ht, hrest⟩ := hcons
        subst hrest
        exact ⟨hlt, ht.symm, f, rfl, ha⟩
  · rw [calculateFuel_ge hlt] at h
    simp at h

lemma calculateFuel_head {cfg : SimulationConfig} {fuel : ℕ} {balance : ℚ} {k : ℕ}
    {t : TradeResult} {rest : List TradeResult}
    (h : calculateFuel cfg fuel balance k = some (t :: rest)) :
    t.account_balance = balance ∧ t.trade_number = k ∧
    t.risk_amount = balance * (cfg.risk_per_trade_percent / 100) ∧
    t.profit_amount = balance * (cfg.risk_per_trade_percent / 100) * cfg.risk_reward_ratio := by
  obtain ⟨-, hx, -⟩ := calculateFuel_some_cons h
  subst hx
  exact ⟨rfl, rfl, rfl, rfl⟩

/-! Loop invariants, by induction on the emitted list. -/

lemma calculateFuel_mem {cfg : SimulationConfig} :
    ∀ {L : List TradeResult} {fuel : ℕ} {balance : ℚ} {k : ℕ},
      calculateFuel cfg fuel balance k = some L →
      ∀ t ∈ L, t.risk_amount = t.account_balance * (cfg.risk_per_trade_percent / 100) ∧
        t.profit_amount = t.risk_amount * cfg.risk_reward_ratio ∧
        t.account_balance < cfg.target_balance := by
  intro L
  induction L with
  | nil => intro fuel balance k h t ht; simp at ht
  | cons x rest ih =>
      intro fuel balance k h t ht
      obtain ⟨hlt, hx, f, rfl, hrest⟩ := calculateFuel_some_cons h
      rcases List.mem_cons.mp ht with h1 | h1
      · subst h1; subst hx; exact ⟨rfl, rfl, hlt⟩
      · exact ih hrest t h1

lemma calculateFuel_chain {cfg : SimulationConfig} :
    ∀ {L : List TradeResult} {fuel : ℕ} {balance : ℚ} {k : ℕ},
      calculateFuel cfg fuel balance k = some L →
      List.Chain' (fun a b => b.account_balance = a.account_balance + a.profit_amount) L := by
  intro L
  induction L with
  | nil => intro fuel balance k h; simp
  | cons x rest ih =>
      intro fuel balance k h
      obtain ⟨hlt, hx, f, rfl, hrest⟩ := calculateFuel_some_cons h
      refine List.Chain'.cons' (ih hrest) ?_
      intro y hy
      cases rest with
      | nil => simp at hy
      | cons z zs =>
          simp only [List.head?_cons, Option.mem_def, Option.some.injEq] at hy
          subst hy
          have hz := calculateFuel_head hrest
          subst hx
          rw [hz.1]

lemma calculateFuel_numbers {cfg : SimulationConfig} :
    ∀ {L : List TradeResult} {fuel : ℕ} {balance : ℚ} {k : ℕ},
      calculateFuel cfg fuel balance k = some L →
      ∀ (i : ℕ) (hi : i < L.length), (L.get ⟨i, hi⟩).trade_number = k + i := by
  intro L
  induction L with
  | nil => intro fuel balance k h i hi; simp at hi
  | cons x rest ih =>
      intro fuel balance k h i hi
      obtain ⟨hlt, hx, f, rfl, hrest⟩ := calculateFuel_some_cons h
      cases i with
      | zero => subst hx; rfl
      | succ j =>
          have hj : j < rest.length := by
            simp only [List.length_cons] at hi; omega
          have h2 := ih hrest j hj
          have hgl : (x :: rest).get ⟨j + 1, hi⟩ = rest.get ⟨j, hj⟩ := rfl
          rw [hgl, h2]
          omega

lemma calculateFuel_ne_nil_iff {cfg : SimulationConfig} {fuel : ℕ} {balance : ℚ} {k : ℕ}
    {L : List TradeResult} (h : calculateFuel cfg fuel balance k = some L) :
    L ≠ [] ↔ balance < cfg.target_balance := by
  constructor
  · intro hne
    cases L with
    | nil => exact absurd rfl hne
    | cons x rest => exact (calculateFuel_some_cons h).1
  · intro hlt hnil
    subst hnil
    exact absurd hlt (not_lt.mpr (calculateFuel_some_nil h))

lemma calculateFuel_last {cfg : SimulationConfig} :
    ∀ {L : List TradeResult} {fuel : ℕ} {balance : ℚ} {k : ℕ},
      calculateFuel cfg fuel balance k = some L →
      ∀ h : L ≠ [],
        cfg.target_balance ≤ (L.getLast h).account_balance + (L.getLast h).profit_amount := by
  intro L
  induction L with
  | nil => intro fuel balance k h hne; exact absurd rfl hne
  | cons x rest ih =>
      intro fuel balance k h hne
      obtain ⟨hlt, hx, f, rfl, hrest⟩ := calculateFuel_some_cons h
      cases rest with
      | nil =>
          have hge := calculateFuel_some_nil hrest
          subst hx
          exact hge
      | cons z zs =>
          rw [List.getLast_cons (List.cons_ne_nil z zs)]
          exact ih hrest (List.cons_ne_nil z zs)

/-! Termination: one loop step multiplies the balance by the growth factor, and
powers of a factor above one exceed any target. -/

lemma calculateFuel_succ_of_lt {cfg : SimulationConfig} {fuel : ℕ} {balance : ℚ} {k : ℕ}
    (h : balance < cfg.target_balance) :
    calculateFuel cfg (fuel + 1) balance k =
      (calculateFuel cfg fuel
          (balance + balance * (cfg.risk_per_trade_percent / 100) * cfg.risk_reward_ratio)
          (k + 1)).map
        (fun rest => ⟨k, balance, balance * (cfg.risk_per_trade_percent / 100),
          balance * (cfg.risk_per_trade_percent / 100) * cfg.risk_reward_ratio⟩ :: rest) := by
  simp [calculateFuel, h]

lemma step_eq_mul_growth (cfg : SimulationConfig) (balance : ℚ) :
    balance + balance * (cfg.risk_per_trade_percent / 100) * cfg.risk_reward_ratio
      = balance * growthFactor cfg := by
  unfold growthFactor
  ring

lemma calculateFuel_isSome_of_pow {cfg : SimulationConfig} :
    ∀ (n : ℕ) (balance : ℚ) (k : ℕ),
      cfg.target_balance ≤ balance * growthFactor cfg ^ n →
      (calculateFuel cfg n balance k).isSome := by
  intro n
  induction n with
  | zero =>
      intro balance k h
      rw [pow_zero, mul_one] at h
      rw [calculateFuel_ge (not_lt.mpr h)]
      rfl
  | succ m ih =>
      intro balance k h
      by_cases hlt : balance < cfg.target_balance
      · have hle : cfg.target_balance ≤
            (balance + balance * (cfg.risk_per_trade_percent / 100) * cfg.risk_reward_ratio) *
              growthFactor cfg ^ m := by
          rw [step_eq_mul_growth]
          calc cfg.target_balance ≤ balance * growthFactor cfg ^ (m + 1) := h
            _ = balance * growthFactor cfg * growthFactor cfg ^ m := by ring
        have hrec := ih _ (k + 1) hle
        rw [Option.isSome_iff_exists] at hrec
        obtain ⟨R, hR⟩ := hrec
        rw [calculateFuel_succ_of_lt hlt, hR]
        rfl
      · rw [calculateFuel_ge hlt]
        rfl

lemma exists_fuel_calculate (cfg : SimulationConfig)
    (hr : 0 < cfg.risk_per_trade_percent) (hrr : 0 < cfg.risk_reward_ratio)
    (hc : 0 < cfg.current_balance) :
    ∃ (fuel : ℕ) (L : List TradeResult), calculate cfg fuel = some L := by
  have hg : 1 < growthFactor cfg := by
    unfold growthFactor
    have h0 : 0 < cfg.risk_per_trade_percent / 100 * cfg.risk_reward_ratio := by positivity
    linarith
  obtain ⟨n, hn⟩ := pow_unbounded_of_one_lt (cfg.target_balance / cfg.current_balance) hg
  have hpow : cfg.target_balance ≤ cfg.current_balance * growthFactor cfg ^ n := by
    rw [div_lt_iff₀ hc] at hn
    nlinarith [hn]
  have hs := calculateFuel_isSome_of_pow n cfg.current_balance 1 hpow
  rw [Option.isSome_iff_exists] at hs
  obtain ⟨L, hL⟩ := hs
  exact ⟨n, L, hL⟩

/-! Folded maxima, used for the summary's max_risk_taken. -/

lemma le_foldl_max (l : List ℚ) :
    ∀ a : ℚ, a ≤ l.foldl max a ∧ ∀ x ∈ l, x ≤ l.foldl max a := by
  induction l with
  | nil => intro a; exact ⟨le_refl a, by simp⟩
  | cons y ys ih =>
      intro a
      have h1 := ih (max a y)
      simp only [List.foldl_cons]
      constructor
      · exact le_trans (le_max_left a y) h1.1
      · intro x hx
        rcases List.mem_cons.mp hx with rfl | hx2
        · exact le_trans (le_max_right a x) h1.1
        · exact h1.2 x hx2

lemma foldl_max_mem (l : List ℚ) :
    ∀ a : ℚ, l.foldl max a = a ∨ l.foldl max a ∈ l := by
  induction l with
  | nil => intro a; left; rfl
  | cons y ys ih =>
      intro a
      simp only [List.foldl_cons]
      rcases ih (max a y) with h | h
      · rcases max_cases a y with ⟨he, -⟩ | ⟨he, -⟩
        · left; rw [h, he]
        · right; rw [h, he]; exact List.mem_cons_self y ys
      · right; exact List.mem_cons_of_mem y h

lemma foldl_max_of_chain :
    ∀ (l : List ℚ) (a : ℚ), List.Chain' (fun p q => p < q) (a :: l) →
      l.foldl max a = (a :: l).getLast (List.cons_ne_nil a l) := by
  intro l
  induction l with
  | nil => intro a _; rfl
  | cons y ys ih =>
      intro a hch
      obtain ⟨hay, hch2⟩ := List.chain'_cons.mp hch
      simp only [List.foldl_cons]
      rw [max_eq_right (le_of_lt hay), ih y hch2,
        List.getLast_cons (List.cons_ne_nil y ys)]

lemma calculateFuel_risk_chain {cfg : SimulationConfig}
    (hr : 0 < cfg.risk_per_trade_percent) (hrr : 0 < cfg.risk_reward_ratio) :
    ∀ {L : List TradeResult} {fuel : ℕ} {balance : ℚ} {k : ℕ}, 0 < balance →
      calculateFuel cfg fuel balance k = some L →
      List.Chain' (fun a b => a.risk_amount < b.risk_amount) L := by
  intro L
  induction L with
  | nil => intro fuel balance k hb h; simp
  | cons x rest ih =>
      intro fuel balance k hb h
      obtain ⟨hlt, hx, f, rfl, hrest⟩ := calculateFuel_some_cons h
      have hprofit : 0 < balance * (cfg.risk_per_trade_percent / 100) * cfg.risk_reward_ratio := by
        positivity
      have hnewpos :
          0 < balance + balance * (cfg.risk_per_trade_percent / 100) * cfg.risk_reward_ratio := by
        linarith
      refine List.Chain'.cons' (ih hnewpos hrest) ?_
      intro y hy
      cases rest with
      | nil => simp at hy
      | cons z zs =>
          have hy2 : y = z := by
            simp only [List.head?_cons, Option.mem_def, Option.some.injEq] at hy
            exact hy.symm
          subst hy2
          have hzr := (calculateFuel_head hrest).2.2.1
          have hb2 : balance <
              balance + balance * (cfg.risk_per_trade_percent / 100) * cfg.risk_reward_ratio := by
            linarith
          have hrpos : 0 < cfg.risk_per_trade_percent / 100 := by positivity
          have hfin : balance * (cfg.risk_per_trade_percent / 100) < y.risk_amount := by
            rw [hzr]
            exact mul_lt_mul_of_pos_right hb2 hrpos
          subst hx
          exact hfin

/-! Boundary validation: both presentation layers reject exactly the invalid
configurations, and never error on the valid ones. -/

lemma simulate_never_errors_of_valid {fuel : ℕ} {current target risk reward : ℚ}
    (hp : pydantic_accepts current target risk reward = true)
    (hgt : ¬ target ≤ current) :
    ∀ e, simulate fuel current target risk reward ≠ Except.error e := by
  intro e
  unfold simulate
  rw [if_pos hp, if_neg hgt]
  cases calculate ⟨current, target, risk, reward⟩ fuel <;> simp

lemma pydantic_accepts_iff (current target risk reward : ℚ) :
    pydantic_accepts current target risk reward = true ↔
      0 < current ∧ 0 < target ∧ 0 < risk ∧ risk ≤ 100 ∧ 0 < reward := by
  simp only [pydantic_accepts, Bool.and_eq_true, decide_eq_true_eq]
  tauto

lemma simulate_error_iff (fuel : ℕ) (current target risk reward : ℚ) :
    (∃ e, simulate fuel current target risk reward = Except.error e) ↔
      (target ≤ current ∨ risk ≤ 0 ∨ 100 < risk ∨ reward ≤ 0 ∨ current ≤ 0 ∨ target ≤ 0) := by
  by_cases hp : pydantic_accepts current target risk reward = true
  · by_cases hgt : target ≤ current
    · constructor
      · intro _; exact Or.inl hgt
      · intro _
        refine ⟨"Target balance must be greater than current balance", ?_⟩
        unfold simulate
        rw [if_pos hp, if_pos hgt]
    · obtain ⟨hc, ht, hr, hr100, hrw⟩ := (pydantic_accepts_iff current target risk reward).mp hp
      constructor
      · rintro ⟨e, he⟩
        exact absurd he (simulate_never_errors_of_valid hp hgt e)
      · intro hbad
        rcases hbad with h | h | h | h | h | h
        · exact absurd h hgt
        · linarith
        · linarith
        · linarith
        · linarith
        · linarith
  · constructor
    · intro _
      rw [pydantic_accepts_iff] at hp
      push_neg at hp
      by_cases hc : 0 < current
      · by_cases ht : 0 < target
        · by_cases hr : 0 < risk
          · by_cases hr100 : risk ≤ 100
            · have := hp hc ht hr hr100
              exact Or.inr (Or.inr (Or.inr (Or.inl this)))
            · exact Or.inr (Or.inr (Or.inl (lt_of_not_le hr100)))
          · exact Or.inr (Or.inl (le_of_not_lt hr))
        · exact Or.inr (Or.inr (Or.inr (Or.inr (Or.inr (le_of_not_lt ht)))))
      · exact Or.inr (Or.inr (Or.inr (Or.inr (Or.inl (le_of_not_lt hc)))))
    · intro _
      refine ⟨"validation error", ?_⟩
      unfold simulate
      rw [if_neg hp]

lemma cli_never_errors_of_valid {fuel : ℕ} {balance target risk reward : ℚ}
    (h1 : ¬ balance ≤ 0) (h2 : ¬ target ≤ balance) (h3 : ¬ (risk ≤ 0 ∨ 100 < risk))
    (h4 : ¬ reward ≤ 0) :
    ∀ e, cli_main fuel balance target risk reward ≠ Except.error e := by
  intro e
  unfold cli_main
  rw [if_neg h1, if_neg h2, if_neg h3, if_neg h4]
  cases calculate ⟨balance, target, risk, reward⟩ fuel <;> simp

lemma cli_main_error_iff (fuel : ℕ) (balance target risk reward : ℚ) :
    (∃ e, cli_main fuel balance target risk reward = Except.error e) ↔
      (target ≤ balance ∨ risk ≤ 0 ∨ 100 < risk ∨ reward ≤ 0 ∨ balance ≤ 0 ∨ target ≤ 0) := by
  by_cases h1 : balance ≤ 0
  · constructor
    · intro _; exact Or.inr (Or.inr (Or.inr (Or.inr (Or.inl h1))))
    · intro _
      refine ⟨"Current balance must be greater than 0", ?_⟩
      unfold cli_main
      rw [if_pos h1]
  · by_cases h2 : target ≤ balance
    · constructor
      · intro _; exact Or.inl h2
      · intro _
        refine ⟨"Target balance must be greater than current balance", ?_⟩
        unfold cli_main
        rw [if_neg h1, if_pos h2]
    · by_cases h3 : risk ≤ 0 ∨ 100 < risk
      · constructor
        · intro _
          rcases h3 with h | h
          · exact Or.inr (Or.inl h)
          · exact Or.inr (Or.inr (Or.inl h))
        · intro _
          refine ⟨"Risk percentage must be between 0 and 100", ?_⟩
          unfold cli_main
          rw [if_neg h1, if_neg h2, if_pos h3]
      · by_cases h4 : reward ≤ 0
        · constructor
          · intro _; exact Or.inr (Or.inr (Or.inr (Or.inl h4)))
          · intro _
            refine ⟨"Risk-to-Reward ratio must be greater than 0", ?_⟩
            unfold cli_main
            rw [if_neg h1, if_neg h2, if_neg h3, if_pos h4]
        · constructor
          · rintro ⟨e, he⟩
            exact absurd he (cli_never_errors_of_valid h1 h2 h3 h4 e)
          · intro hbad
            push_neg at h3
            rcases hbad with h | h | h | h | h | h
            · exact absurd h h2
            · exact absurd h (not_le.mpr h3.1)
            · exact absurd h (not_lt.mpr h3.2)
            · exact absurd h h4
            · exact absurd h h1
            · exact absurd h (by push_neg at h1; linarith)

lemma run_ok_of_valid {current target risk reward : ℚ}
    (hc : 0 < current) (hgt : current < target) (hr : 0 < risk) (hr100 : risk ≤ 100)
    (hrw : 0 < reward) :
    ∃ (f : ℕ) (L : List TradeResult),
      simulate f current target risk reward =
        Except.ok (some (L, get_summary ⟨current, target, risk, reward⟩ L)) ∧
      cli_main f current target risk reward =
        Except.ok (some (L, get_summary ⟨current, target, risk, reward⟩ L)) := by
  obtain ⟨f, L, hL⟩ := exists_fuel_calculate ⟨current, target, risk, reward⟩ hr hrw hc
  refine ⟨f, L, ?_, ?_⟩
  · unfold simulate
    rw [if_pos, if_neg (not_le.mpr hgt)]
    · rw [hL]
    · rw [pydantic_accepts_iff]
      exact ⟨hc, lt_trans hc hgt, hr, hr100, hrw⟩
  · unfold cli_main
    rw [if_neg (not_le.mpr hc), if_neg (not_le.mpr hgt),
      if_neg (by push_neg; exact ⟨hr, hr100⟩ : ¬ (risk ≤ 0 ∨ 100 < risk)),
      if_neg (not_le.mpr hrw)]
    rw [hL]

lemma foldl_max_risk_eq (ts : List TradeResult) :
    ∀ a : ℚ, ts.foldl (fun acc x => max acc x.risk_amount) a
      = (ts.map TradeResult.risk_amount).foldl max a := by
  induction ts with
  | nil => intro a; rfl
  | cons y ys ih =>
      intro a
      simp only [List.foldl_cons, List.map_cons]
      exact ih (max a y.risk_amount)

lemma getLast_risk_map :
    ∀ (l : List TradeResult) (t : TradeResult),
      (t.risk_amount :: l.map TradeResult.risk_amount).getLast (List.cons_ne_nil _ _)
        = ((t :: l).getLast (List.cons_ne_nil t l)).risk_amount := by
  intro l
  induction l with
  | nil => intro t; rfl
  | cons z zs ih =>
      intro t
      simp only [List.map_cons, List.getLast_cons_cons]
      exact ih z

/-! Claim theorems. -/

/-- C1: for every config with target_balance above current_balance and positive
risk_per_trade_percent and risk_reward_ratio, every trade record in a finished
run of calculate satisfies risk_amount = account_balance * risk_per_trade_percent
/ 100 and profit_amount = risk_amount * risk_reward_ratio. -/
theorem calculate_trade_fields (cfg : SimulationConfig)
    (h1 : cfg.current_balance < cfg.target_balance)
    (h2 : 0 < cfg.risk_per_trade_percent) (h3 : 0 < cfg.risk_reward_ratio)
    (fuel : ℕ) (L : List TradeResult) (hL : calculate cfg fuel = some L)
    (t : TradeResult) (ht : t ∈ L) :
    t.risk_amount = t.account_balance * cfg.risk_per_trade_percent / 100 ∧
    t.profit_amount = t.risk_amount * cfg.risk_reward_ratio := by
  obtain ⟨ha, hb, -⟩ := calculateFuel_mem hL t ht
  exact ⟨by rw [ha, mul_div_assoc], hb⟩

theorem calculate_trade_fields_witness :
    (⟨1, 1, 1/2, 1⟩ : TradeResult).risk_amount =
        (⟨1, 1, 1/2, 1⟩ : TradeResult).account_balance * 50 / 100 ∧
    (⟨1, 1, 1/2, 1⟩ : TradeResult).profit_amount =
        (⟨1, 1, 1/2, 1⟩ : TradeResult).risk_amount * 2 :=
  calculate_trade_fields ⟨1, 2, 50, 2⟩ (by norm_num) (by norm_num) (by norm_num)
    5 [⟨1, 1, 1/2, 1⟩] (by norm_num [calculate, calculateFuel]) ⟨1, 1, 1/2, 1⟩ (by simp)

/-- C2: in every finished run of calculate, the first trade's account_balance
is the config's current_balance, and each later trade's account_balance is the
previous trade's account_balance plus the previous trade's profit_amount. -/
theorem calculate_chaining (cfg : SimulationConfig) (fuel : ℕ) (L : List TradeResult)
    (hL : calculate cfg fuel = some L) :
    (∀ h : L ≠ [], (L.head h).account_balance = cfg.current_balance) ∧
    ∀ (i : ℕ) (h : i + 1 < L.length),
      (L.get ⟨i + 1, h⟩).account_balance =
        (L.get ⟨i, Nat.lt_of_succ_lt h⟩).account_balance +
          (L.get ⟨i, Nat.lt_of_succ_lt h⟩).profit_amount := by
  constructor
  · intro h
    cases L with
    | nil => exact absurd rfl h
    | cons x rest => exact (calculateFuel_head hL).1
  · intro i h
    have hch := calculateFuel_chain hL
    have hstep := List.chain'_iff_get.mp hch i (by omega)
    exact hstep

theorem calculate_chaining_witness :
    (([(⟨1, 1, 1, 1⟩ : TradeResult), ⟨2, 2, 2, 2⟩].get
        ⟨0 + 1, by norm_num⟩).account_balance =
      ([(⟨1, 1, 1, 1⟩ : TradeResult), ⟨2, 2, 2, 2⟩].get
          ⟨0, Nat.lt_of_succ_lt (by norm_num)⟩).account_balance +
        ([(⟨1, 1, 1, 1⟩ : TradeResult), ⟨2, 2, 2, 2⟩].get
            ⟨0, Nat.lt_of_succ_lt (by norm_num)⟩).profit_amount) :=
  (calculate_chaining ⟨1, 4, 100, 1⟩ 5 [⟨1, 1, 1, 1⟩, ⟨2, 2, 2, 2⟩]
    (by norm_num [calculate, calculateFuel])).2 0 (by norm_num)

/-- C3: for every config with positive risk_per_trade_percent, positive
risk_reward_ratio and target_balance > current_balance > 0, the loop
terminates: some fuel makes calculate return a finite list. -/
theorem calculate_terminates (cfg : SimulationConfig)
    (hr : 0 < cfg.risk_per_trade_percent) (hrr : 0 < cfg.risk_reward_ratio)
    (hc : 0 < cfg.current_balance) (ht : cfg.current_balance < cfg.target_balance) :
    ∃ (fuel : ℕ) (L : List TradeResult), calculate cfg fuel = some L :=
  exists_fuel_calculate cfg hr hrr hc

theorem calculate_terminates_witness :
    ∃ (fuel : ℕ) (L : List TradeResult), calculate ⟨1, 2, 50, 2⟩ fuel = some L :=
  calculate_terminates ⟨1, 2, 50, 2⟩ (by norm_num) (by norm_num) (by norm_num) (by norm_num)

/-- C4: for every config with positive parameters, every emitted trade's
account_balance is below target_balance, and when the run is non-empty the
balance after the last trade is at least target_balance. -/
theorem calculate_stop_condition (cfg : SimulationConfig)
    (h1 : 0 < cfg.current_balance) (h2 : 0 < cfg.target_balance)
    (h3 : 0 < cfg.risk_per_trade_percent) (h4 : 0 < cfg.risk_reward_ratio)
    (fuel : ℕ) (L : List TradeResult) (hL : calculate cfg fuel = some L) :
    (∀ t ∈ L, t.account_balance < cfg.target_balance) ∧
    ∀ h : L ≠ [],
      cfg.target_balance ≤ (L.getLast h).account_balance + (L.getLast h).profit_amount :=
  ⟨fun t ht => (calculateFuel_mem hL t ht).2.2, calculateFuel_last hL⟩

theorem calculate_stop_condition_witness :
    (⟨1, 1, 1/2, 1⟩ : TradeResult).account_balance <
        (⟨1, 2, 50, 2⟩ : SimulationConfig).target_balance ∧
    (⟨1, 2, 50, 2⟩ : SimulationConfig).target_balance ≤
      (([(⟨1, 1, 1/2, 1⟩ : TradeResult)].getLast (by simp)).account_balance +
        ([(⟨1, 1, 1/2, 1⟩ : TradeResult)].getLast (by simp)).profit_amount) :=
  ⟨(calculate_stop_condition ⟨1, 2, 50, 2⟩ (by norm_num) (by norm_num) (by norm_num)
      (by norm_num) 5 [⟨1, 1, 1/2, 1⟩] (by norm_num [calculate, calculateFuel])).1
      ⟨1, 1, 1/2, 1⟩ (by simp),
   (calculate_stop_condition ⟨1, 2, 50, 2⟩ (by norm_num) (by norm_num) (by norm_num)
      (by norm_num) 5 [⟨1, 1, 1/2, 1⟩] (by norm_num [calculate, calculateFuel])).2
      (by simp)⟩

/-- C5: in every finished run of calculate the trade_number fields are exactly
1..N in order; the run is non-empty iff target_balance exceeds
current_balance, and target_balance ≤ current_balance silently yields the
empty list rather than an error. -/
theorem calculate_trade_numbers (cfg : SimulationConfig) (fuel : ℕ)
    (L : List TradeResult) (hL : calculate cfg fuel = some L) :
    (∀ (i : ℕ) (hi : i < L.length), (L.get ⟨i, hi⟩).trade_number = i + 1) ∧
    (L ≠ [] ↔ cfg.current_balance < cfg.target_balance) ∧
    (cfg.target_balance ≤ cfg.current_balance → calculate cfg fuel = some []) := by
  refine ⟨?_, calculateFuel_ne_nil_iff hL, ?_⟩
  · intro i hi
    have h2 := calculateFuel_numbers hL i hi
    omega
  · intro hge
    exact calculateFuel_ge (not_lt.mpr hge)

theorem calculate_trade_numbers_witness :
    (([(⟨1, 1, 1, 1⟩ : TradeResult), ⟨2, 2, 2, 2⟩].get ⟨1, by norm_num⟩).trade_number
        = 1 + 1) ∧
    (([(⟨1, 1, 1, 1⟩ : TradeResult), ⟨2, 2, 2, 2⟩] ≠ []) ↔
      (⟨1, 4, 100, 1⟩ : SimulationConfig).current_balance <
        (⟨1, 4, 100, 1⟩ : SimulationConfig).target_balance) :=
  ⟨(calculate_trade_numbers ⟨1, 4, 100, 1⟩ 5 [⟨1, 1, 1, 1⟩, ⟨2, 2, 2, 2⟩]
      (by norm_num [calculate, calculateFuel])).1 1 (by norm_num),
   (calculate_trade_numbers ⟨1, 4, 100, 1⟩ 5 [⟨1, 1, 1, 1⟩, ⟨2, 2, 2, 2⟩]
      (by norm_num [calculate, calculateFuel])).2.1⟩

/-- C6: get_summary is a pure function of the trade list and config: on the
empty list it reports zero trades, zero max risk and the starting balance; on
a non-empty list it reports the length, the maximum risk_amount over the
trades, and the last trade's account_balance plus its profit_amount. -/
theorem get_summary_spec (cfg : SimulationConfig) (t : TradeResult) (ts : List TradeResult) :
    (get_summary cfg []).total_trades = 0 ∧
    (get_summary cfg []).max_risk_taken = 0 ∧
    (get_summary cfg []).final_balance = cfg.current_balance ∧
    (get_summary cfg (t :: ts)).total_trades = (t :: ts).length ∧
    (get_summary cfg (t :: ts)).final_balance =
      ((t :: ts).getLast (List.cons_ne_nil t ts)).account_balance +
        ((t :: ts).getLast (List.cons_ne_nil t ts)).profit_amount ∧
    (get_summary cfg (t :: ts)).max_risk_taken ∈ (t :: ts).map TradeResult.risk_amount ∧
    ∀ x ∈ t :: ts, x.risk_amount ≤ (get_summary cfg (t :: ts)).max_risk_taken := by
  refine ⟨rfl, rfl, rfl, rfl, rfl, ?_, ?_⟩
  · show ts.foldl (fun acc x => max acc x.risk_amount) t.risk_amount ∈ _
    rw [foldl_max_risk_eq]
    rcases foldl_max_mem (ts.map TradeResult.risk_amount) t.risk_amount with h | h
    · rw [h]
      simp
    · simp only [List.map_cons]
      exact List.mem_cons_of_mem _ h
  · intro x hx
    show x.risk_amount ≤ ts.foldl (fun acc y => max acc y.risk_amount) t.risk_amount
    rw [foldl_max_risk_eq]
    rcases List.mem_cons.mp hx with h | h
    · rw [h]
      exact (le_foldl_max (ts.map TradeResult.risk_amount) t.risk_amount).1
    · exact (le_foldl_max (ts.map TradeResult.risk_amount) t.risk_amount).2
        x.risk_amount (List.mem_map_of_mem _ h)

theorem get_summary_spec_witness :
    (get_summary ⟨1, 2, 50, 2⟩ []).total_trades = 0 ∧
    (⟨1, 1, 1/2, 1⟩ : TradeResult).risk_amount ≤
      (get_summary ⟨1, 2, 50, 2⟩ [⟨1, 1, 1/2, 1⟩]).max_risk_taken :=
  ⟨(get_summary_spec ⟨1, 2, 50, 2⟩ ⟨1, 1, 1/2, 1⟩ []).1,
   (get_summary_spec ⟨1, 2, 50, 2⟩ ⟨1, 1, 1/2, 1⟩ []).2.2.2.2.2.2 ⟨1, 1, 1/2, 1⟩ (by simp)⟩

/-- C7: for the config (200, 2000, 2, 3) the first trade is
(1, 200, 4, 12), the balance after trade 1 (the second trade's starting
balance) is 212, compounding continues until the final balance reaches 2000,
and the summary's total_trades is the number of emitted records. -/
theorem boundary_200_2000 :
    ∃ (fuel : ℕ) (L : List TradeResult),
      calculate ⟨200, 2000, 2, 3⟩ fuel = some L ∧
      L.head? = some ⟨1, 200, 4, 12⟩ ∧
      (L.drop 1).head?.map TradeResult.account_balance = some 212 ∧
      2000 ≤ (get_summary ⟨200, 2000, 2, 3⟩ L).final_balance ∧
      (get_summary ⟨200, 2000, 2, 3⟩ L).total_trades = L.length := by
  obtain ⟨f, L, hL⟩ :=
    exists_fuel_calculate ⟨200, 2000, 2, 3⟩ (by norm_num) (by norm_num) (by norm_num)
  have hne : L ≠ [] := (calculateFuel_ne_nil_iff hL).mpr (by norm_num)
  cases L with
  | nil => exact absurd rfl hne
  | cons x rest =>
      obtain ⟨hlt, hx, f2, hf2, hrest⟩ := calculateFuel_some_cons hL
      have hx2 : x = (⟨1, 200, 4, 12⟩ : TradeResult) := by
        rw [hx]
        norm_num
      norm_num at hrest
      have hne2 : rest ≠ [] := (calculateFuel_ne_nil_iff hrest).mpr (by norm_num)
      cases rest with
      | nil => exact absurd rfl hne2
      | cons z zs =>
          have hz : z.account_balance = 212 := (calculateFuel_head hrest).1
          refine ⟨f, x :: z :: zs, hL, ?_, ?_, ?_, rfl⟩
          · rw [List.head?_cons, hx2]
          · simp [hz]
          · exact calculateFuel_last hL (List.cons_ne_nil x (z :: zs))

/-- C8 counterexample: on the empty trade list, the dictionary returned by
get_summary does not contain the starting_balance and target_balance keys, so
the claim that every summary carries them fails at this input. -/
theorem get_summary_empty_counterexample :
    (get_summary ⟨200, 2000, 2, 3⟩ []).starting_balance = none ∧
    (get_summary ⟨200, 2000, 2, 3⟩ []).target_balance = none ∧
    ¬ ((get_summary ⟨200, 2000, 2, 3⟩ []).starting_balance =
          some ((⟨200, 2000, 2, 3⟩ : SimulationConfig).current_balance) ∧
        (get_summary ⟨200, 2000, 2, 3⟩ []).target_balance =
          some ((⟨200, 2000, 2, 3⟩ : SimulationConfig).target_balance)) := by
  refine ⟨rfl, rfl, ?_⟩
  rintro ⟨h, -⟩
  simp [get_summary] at h

/-- C8 (amended): for every non-empty trade list the summary carries the
config's current_balance and target_balance in its starting_balance and
target_balance keys; on the empty trade list those keys are absent. -/
theorem get_summary_display_fields (cfg : SimulationConfig) (t : TradeResult)
    (ts : List TradeResult) :
    (get_summary cfg (t :: ts)).starting_balance = some cfg.current_balance ∧
    (get_summary cfg (t :: ts)).target_balance = some cfg.target_balance ∧
    (get_summary cfg []).starting_balance = none ∧
    (get_summary cfg []).target_balance = none :=
  ⟨rfl, rfl, rfl, rfl⟩

/-- C9: both boundary layers reject a request exactly when target_balance ≤
current_balance, risk_per_trade_percent lies outside (0,100], risk_reward_ratio
≤ 0, current_balance ≤ 0 or target_balance ≤ 0 (the engine is then never run),
and on every other request some fuel lets the engine finish without an
error. -/
theorem boundary_validation (fuel : ℕ) (current target risk reward : ℚ) :
    ((∃ e, simulate fuel current target risk reward = Except.error e) ↔
      (target ≤ current ∨ risk ≤ 0 ∨ 100 < risk ∨ reward ≤ 0 ∨
        current ≤ 0 ∨ target ≤ 0)) ∧
    ((∃ e, cli_main fuel current target risk reward = Except.error e) ↔
      (target ≤ current ∨ risk ≤ 0 ∨ 100 < risk ∨ reward ≤ 0 ∨
        current ≤ 0 ∨ target ≤ 0)) ∧
    (¬ (target ≤ current ∨ risk ≤ 0 ∨ 100 < risk ∨ reward ≤ 0 ∨
        current ≤ 0 ∨ target ≤ 0) →
      ∃ (f : ℕ) (L : List TradeResult),
        simulate f current target risk reward =
          Except.ok (some (L, get_summary ⟨current, target, risk, reward⟩ L)) ∧
        cli_main f current target risk reward =
          Except.ok (some (L, get_summary ⟨current, target, risk, reward⟩ L))) := by
  refine ⟨simulate_error_iff fuel current target risk reward,
    cli_main_error_iff fuel current target risk reward, ?_⟩
  intro hok
  push_neg at hok
  obtain ⟨h1, h2, h3, h4, h5, h6⟩ := hok
  exact run_ok_of_valid h5 h1 h2 h3 h4

theorem boundary_validation_witness :
    (∃ e, simulate 5 2 1 50 2 = Except.error e) ∧
    (∃ (f : ℕ) (L : List TradeResult),
      simulate f 1 2 50 2 = Except.ok (some (L, get_summary ⟨1, 2, 50, 2⟩ L)) ∧
      cli_main f 1 2 50 2 = Except.ok (some (L, get_summary ⟨1, 2, 50, 2⟩ L))) :=
  ⟨(boundary_validation 5 2 1 50 2).1.mpr (Or.inl (by norm_num)),
   (boundary_validation 5 1 2 50 2).2.2 (by norm_num)⟩

/-- C10: for every config with positive risk_per_trade_percent,
risk_reward_ratio and current_balance, the risk_amount fields of a finished
run are strictly increasing, and the summary's max_risk_taken is the last
trade's risk_amount. -/
theorem calculate_risk_monotone (cfg : SimulationConfig)
    (h2 : 0 < cfg.risk_per_trade_percent) (h3 : 0 < cfg.risk_reward_ratio)
    (h4 : 0 < cfg.current_balance)
    (fuel : ℕ) (L : List TradeResult) (hL : calculate cfg fuel = some L) :
    (∀ (i : ℕ) (h : i + 1 < L.length),
        (L.get ⟨i, Nat.lt_of_succ_lt h⟩).risk_amount <
          (L.get ⟨i + 1, h⟩).risk_amount) ∧
    ∀ h : L ≠ [], (get_summary cfg L).max_risk_taken = (L.getLast h).risk_amount := by
  have hch := calculateFuel_risk_chain h2 h3 h4 hL
  constructor
  · intro i h
    exact List.chain'_iff_get.mp hch i (by omega)
  · intro hne
    cases L with
    | nil => exact absurd rfl hne
    | cons t ts =>
        show ts.foldl (fun acc x => max acc x.risk_amount) t.risk_amount = _
        rw [foldl_max_risk_eq]
        have hmap : List.Chain' (fun p q => p < q)
            (t.risk_amount :: ts.map TradeResult.risk_amount) := by
          have hm := (List.chain'_map TradeResult.risk_amount).mpr hch
          simpa using hm
        rw [foldl_max_of_chain _ _ hmap]
        exact getLast_risk_map ts t

theorem calculate_risk_monotone_witness :
    (([(⟨1, 1, 1, 1⟩ : TradeResult), ⟨2, 2, 2, 2⟩].get
        ⟨0, Nat.lt_of_succ_lt (by norm_num)⟩).risk_amount <
      ([(⟨1, 1, 1, 1⟩ : TradeResult), ⟨2, 2, 2, 2⟩].get ⟨0 + 1, by norm_num⟩).risk_amount) ∧
    (get_summary ⟨1, 4, 100, 1⟩ [⟨1, 1, 1, 1⟩, ⟨2, 2, 2, 2⟩]).max_risk_taken =
      (([(⟨1, 1, 1, 1⟩ : TradeResult), ⟨2, 2, 2, 2⟩]).getLast (by simp)).risk_amount :=
  ⟨(calculate_risk_monotone ⟨1, 4, 100, 1⟩ (by norm_num) (by norm_num) (by norm_num) 5
      [⟨1, 1, 1, 1⟩, ⟨2, 2, 2, 2⟩] (by norm_num [calculate, calculateFuel])).1 0 (by norm_num),
   (calculate_risk_monotone ⟨1, 4, 100, 1⟩ (by norm_num) (by norm_num) (by norm_num) 5
      [⟨1, 1, 1, 1⟩, ⟨2, 2, 2, 2⟩] (by norm_num [calculate, calculateFuel])).2 (by simp)⟩

end RecoveryRoadmap
